import Mathlib

/-!
Verification of the `cdtext` CD-Text parser (`src/lib.rs`).

The Rust source is shallowly embedded: bytes are `Nat`s (every value read
from an input buffer is a `u8`, hence `< 256`; theorems add explicit bounds
where a claim depends on them), 12-byte payloads are `List Nat`, Rust
`String` values are represented by their UTF-8 byte lists, and Rust panics
(`unwrap` on `None`, out-of-bounds slice indexing, `str::from_utf8(..).unwrap()`
on invalid UTF-8) are modelled explicitly by the `Panic`-carrying result type
`PResult`: a `.panic` value corresponds to the Rust process aborting.
-/

/-- Panic reasons of the Rust source: `Option::unwrap` on `None`,
out-of-bounds slice indexing, and `Result::unwrap` on a `str::from_utf8`
decoding error. These model unrecoverable Rust panics, not recoverable
typed errors (the source defines no error type). -/
inductive Panic
  | unwrapNone
  | indexOutOfBounds
  | utf8Error
deriving DecidableEq

/-- Result of running a piece of Rust code that may panic. -/
inductive PResult (α : Type)
  | panic (k : Panic)
  | ok (a : α)
deriving DecidableEq

/-- Mirrors the Rust enum `CDTextPackType` (src/lib.rs lines 11-26). -/
inductive CDTextPackType
  | Title
  | Performers
  | Songwriters
  | Composers
  | Arrangers
  | Message
  | DiscID
  | Genre
  | TOC
  | AdditionalTOC
  | ClosedInfo
  | Code
  | BlockSizeInfo
deriving DecidableEq

/-- Mirrors `CDTextPackType::from_u8` (the `FromPrimitive` derive with the
discriminants given in the Rust enum: 0x80..0x89, 0x8d, 0x8e, 0x8f). -/
def CDTextPackType.fromU8 (b : Nat) : Option CDTextPackType :=
  if b = 0x80 then some .Title
  else if b = 0x81 then some .Performers
  else if b = 0x82 then some .Songwriters
  else if b = 0x83 then some .Composers
  else if b = 0x84 then some .Arrangers
  else if b = 0x85 then some .Message
  else if b = 0x86 then some .DiscID
  else if b = 0x87 then some .Genre
  else if b = 0x88 then some .TOC
  else if b = 0x89 then some .AdditionalTOC
  else if b = 0x8d then some .ClosedInfo
  else if b = 0x8e then some .Code
  else if b = 0x8f then some .BlockSizeInfo
  else none

/-- Mirrors the Rust enum `CDTextTrackNumber` (src/lib.rs lines 30-34). -/
inductive CDTextTrackNumber
  | WholeAlbum
  | Track (n : Nat)
deriving DecidableEq

/-- Mirrors the Rust struct `CDTextPack` (src/lib.rs lines 37-48). -/
structure CDTextPack where
  pack_type : CDTextPackType
  track_number : CDTextTrackNumber
  seq_counter : Nat
  character_position : Nat
  block_number : Nat
  is_double_byte_characters : Bool
  payload : List Nat
  crc : Nat
deriving DecidableEq

/-- Mirrors the Rust enum `CDTextEntryDataType` (src/lib.rs lines 51-55);
a Rust `String` is represented by its UTF-8 byte list. -/
inductive CDTextEntryDataType
  | String (s : List Nat)
  | Data (d : List Nat)
deriving DecidableEq

/-- Mirrors the Rust struct `CDTextEntry` (src/lib.rs lines 58-63). -/
structure CDTextEntry where
  track_number : CDTextTrackNumber
  entry_type : CDTextPackType
  data : CDTextEntryDataType
deriving DecidableEq

/-- DFA state of the UTF-8 validity check: `start` between complete code
points, `cont count lo hi` when the next byte must lie in `[lo, hi)` and
`count` generic continuation bytes follow it. -/
inductive Utf8State
  | start
  | cont (count lo hi : Nat)
deriving DecidableEq

/-- One byte of Rust's `str::from_utf8` validation: rejects lead bytes
0xC0/0xC1 and above 0xF4, overlong encodings (0xE0/0xF0 ranges),
surrogates (0xED A0..BF) and code points above U+10FFFF (0xF4 90..). -/
def utf8Step : Utf8State → Nat → Option Utf8State
  | .start, b =>
    if b < 128 then some .start
    else if b < 194 then none
    else if b < 224 then some (.cont 0 128 192)
    else if b = 224 then some (.cont 1 160 192)
    else if b = 237 then some (.cont 1 128 160)
    else if b < 240 then some (.cont 1 128 192)
    else if b = 240 then some (.cont 2 144 192)
    else if b = 244 then some (.cont 2 128 144)
    else if b < 245 then some (.cont 2 128 192)
    else none
  | .cont count lo hi, b =>
    if lo ≤ b ∧ b < hi then
      match count with
      | 0 => some .start
      | k + 1 => some (.cont k 128 192)
    else none

/-- Run of the UTF-8 validation DFA over a byte list. -/
def utf8Run : List Nat → Utf8State → Bool
  | [], s => decide (s = .start)
  | b :: rest, s =>
    match utf8Step s b with
    | none => false
    | some s2 => utf8Run rest s2

/-- Validity of a byte list as UTF-8, as checked by Rust's
`str::from_utf8` (whose `unwrap` in `CDText::parse` panics when this is
false). -/
def utf8Valid (l : List Nat) : Bool := utf8Run l .start

/-- Mirrors `CDText::parse_pack` (src/lib.rs lines 85-124): decode one
chunk. Returns `ok none` when byte 0 matches no known tag (Rust `None` via
the `?` operator), `.panic .indexOutOfBounds` when the chunk is shorter
than the fixed offsets the Rust code indexes (the release-mode behaviour;
the `debug_assert!` is compiled out in release builds). -/
def parse_pack (subdata : List Nat) : PResult (Option CDTextPack) :=
  match subdata[0]? with
  | none => .panic .indexOutOfBounds
  | some b0 =>
    match CDTextPackType.fromU8 b0 with
    | none => .ok none
    | some pack_type =>
      match subdata[1]? with
      | none => .panic .indexOutOfBounds
      | some b1 =>
        match subdata[2]? with
        | none => .panic .indexOutOfBounds
        | some seq_counter =>
          match subdata[3]? with
          | none => .panic .indexOutOfBounds
          | some b3 =>
            if subdata.length < 16 then .panic .indexOutOfBounds
            else if subdata.length < 18 then .panic .indexOutOfBounds
            else
              .ok (some
                { pack_type := pack_type
                  track_number :=
                    if b1 = 0 then .WholeAlbum else .Track b1
                  seq_counter := seq_counter
                  character_position := b3 % 16
                  block_number := b3 / 16 % 8
                  is_double_byte_characters := decide (b3 / 128 % 2 ≠ 0)
                  payload := (subdata.drop 4).take 12
                  crc := 256 * subdata.getD 16 0 + subdata.getD 17 0 })

/-- Fuel-driven worker for `chunks18`; the fuel is always at least the
length of the list, so the middle fallback arm is unreachable. -/
def chunks18Aux : Nat → List Nat → List (List Nat)
  | _, [] => []
  | 0, _ => []
  | fuel + 1, l => l.take 18 :: chunks18Aux fuel (l.drop 18)

/-- Mirrors Rust's `data.chunks(18)` (src/lib.rs line 130): consecutive
non-overlapping 18-byte windows, with a shorter trailing window when the
length is not a multiple of 18 (Rust `chunks`, not `chunks_exact`). -/
def chunks18 (l : List Nat) : List (List Nat) := chunks18Aux l.length l

/-- Mirrors `CDText::iter_pack_chunks` (src/lib.rs lines 127-131). -/
def iter_pack_chunks (data : List Nat) : List (PResult (Option CDTextPack)) :=
  (chunks18 data).map parse_pack

/-- Mirrors Rust's `iter().position(|&x| x == 0)` on a byte slice. -/
def firstZeroPos : List Nat → Option Nat
  | [] => none
  | b :: rest => if b = 0 then some 0 else (firstZeroPos rest).map (· + 1)

/-- Mirrors stripping a trailing run of NUL bytes, as done both by the
`rev().position(|x| *x != 0)` slice trick and by
`trim_end_matches(|x| x as u32 == 0)` in `CDText::parse`. -/
def stripTrailingZeros (l : List Nat) : List Nat :=
  (l.reverse.dropWhile (· == 0)).reverse

/-- Mirrors the track-number increment in `CDText::parse` (src/lib.rs
lines 196-200); `nr + 1` is `u8` addition, which wraps in release mode. -/
def succTrack : CDTextTrackNumber → CDTextTrackNumber
  | .WholeAlbum => .Track 1
  | .Track n => .Track ((n + 1) % 256)

/-- The reassembly state carried across loop iterations of `CDText::parse`:
`payload_buffer`, the entries pushed so far, and `prev_pack`. -/
structure ParseState where
  payload_buffer : List Nat
  parsed_data : List CDTextEntry
  prev_pack : CDTextPack
deriving DecidableEq

/-- The split of the previous pack's payload driven by the current pack's
character position: `&prev_pack.payload[..index]` with
`index = 12u8.saturating_sub(pack.character_position)` (src/lib.rs
lines 149, 158). `Nat` subtraction saturates exactly like
`u8::saturating_sub`. -/
def beforeSlice (prev pack : CDTextPack) : List Nat :=
  prev.payload.take (12 - pack.character_position)

/-- The complementary slice `&prev_pack.payload[index..]` (src/lib.rs
line 159). -/
def afterSlice (prev pack : CDTextPack) : List Nat :=
  prev.payload.drop (12 - pack.character_position)

/-- What the loop appends for a terminal segment: `before` with its
trailing NUL run stripped, except that when `before` is all zeros the
Rust `rev().position(|x| *x != 0)` returns `None` and the whole slice is
kept (src/lib.rs lines 203-213). -/
def appendedOf (before : List Nat) : List Nat :=
  if before.any (· != 0) then stripTrailingZeros before else before

/-- Tail of the loop body of `CDText::parse` (src/lib.rs lines 203-234),
shared by the two-NUL branch and the plain path: append `before` (via
`appendedOf` when terminal), flush a completed entry when terminal, then
append `after`. -/
def stepTail (buf : List Nat) (parsed : List CDTextEntry) (prev : CDTextPack)
    (track : CDTextTrackNumber) (before after : List Nat) (is_terminal : Bool) :
    PResult (List Nat × List CDTextEntry) :=
  let buf1 := buf ++ (if is_terminal then appendedOf before else before)
  if is_terminal then
    if utf8Valid buf1 then
      .ok (after,
        parsed ++ [⟨track, prev.pack_type, .String (stripTrailingZeros buf1)⟩])
    else .panic .utf8Error
  else .ok (buf1 ++ after, parsed)

/-- One text-category iteration of the loop of `CDText::parse`
(src/lib.rs lines 149-234), producing the new `payload_buffer` and entry
list (the caller installs the new `prev_pack`). The first branch is the
exactly-two-NUL special case (lines 166-201). -/
def parse_step (st : ParseState) (pack : CDTextPack) :
    PResult (List Nat × List CDTextEntry) :=
  let before := beforeSlice st.prev_pack pack
  let after := afterSlice st.prev_pack pack
  let is_terminal : Bool := decide (before.getLast? = some 0)
  if (before.filter (· == 0)).length = 2 then
    match firstZeroPos before with
    | none => .panic .unwrapNone
    | some position =>
      let buf1 := st.payload_buffer ++ before.take position
      if utf8Valid buf1 then
        stepTail []
          (st.parsed_data ++
            [⟨st.prev_pack.track_number, st.prev_pack.pack_type, .String buf1⟩])
          st.prev_pack (succTrack st.prev_pack.track_number)
          (before.drop (position + 1)) after is_terminal
      else .panic .utf8Error
  else
    stepTail st.payload_buffer st.parsed_data st.prev_pack
      st.prev_pack.track_number before after is_terminal

/-- The five text-bearing categories of the loop's `match` (src/lib.rs
lines 152-156). -/
def isTextCategory : CDTextPackType → Bool
  | .Arrangers => true
  | .Composers => true
  | .Title => true
  | .Performers => true
  | .Songwriters => true
  | _ => false

/-- The `for pack in self.iter_pack_chunks().skip(1)` loop of
`CDText::parse` (src/lib.rs lines 140-242): each item is unwrapped
(panicking on `None`), text categories run `parse_step` and move
`prev_pack` forward, any other category breaks out of the loop. -/
def parse_loop : List (PResult (Option CDTextPack)) → ParseState → PResult ParseState
  | [], st => .ok st
  | item :: rest, st =>
    match item with
    | .panic k => .panic k
    | .ok none => .panic .unwrapNone
    | .ok (some pack) =>
      if isTextCategory pack.pack_type then
        match parse_step st pack with
        | .panic k => .panic k
        | .ok (buf, parsed) => parse_loop rest ⟨buf, parsed, pack⟩
      else .ok st

/-- Mirrors `CDText::parse` (src/lib.rs lines 134-263): seed `prev_pack`
from the first pack (unwrap panics on an empty stream, an undecodable
first pack, or a decode panic), run the loop, then flush the remaining
buffer plus the last pack's payload up to its first NUL byte (unwrap
panics when the payload holds no NUL) as one final entry. -/
def parse (data : List Nat) : PResult (List CDTextEntry) :=
  match iter_pack_chunks data with
  | [] => .panic .unwrapNone
  | first :: rest =>
    match first with
    | .panic k => .panic k
    | .ok none => .panic .unwrapNone
    | .ok (some prev0) =>
      match parse_loop rest ⟨[], [], prev0⟩ with
      | .panic k => .panic k
      | .ok st =>
        match firstZeroPos st.prev_pack.payload with
        | none => .panic .unwrapNone
        | some pos =>
          let buf := st.payload_buffer ++ st.prev_pack.payload.take pos
          if utf8Valid buf then
            .ok (st.parsed_data ++
              [⟨st.prev_pack.track_number, st.prev_pack.pack_type, .String buf⟩])
          else .panic .utf8Error

/-- The one-byte tag of each category, from the Rust enum discriminants. -/
def tagOf : CDTextPackType → Nat
  | .Title => 0x80
  | .Performers => 0x81
  | .Songwriters => 0x82
  | .Composers => 0x83
  | .Arrangers => 0x84
  | .Message => 0x85
  | .DiscID => 0x86
  | .Genre => 0x87
  | .TOC => 0x88
  | .AdditionalTOC => 0x89
  | .ClosedInfo => 0x8d
  | .Code => 0x8e
  | .BlockSizeInfo => 0x8f

/-- The raw track byte of a track reference (0 encodes the whole album). -/
def trackByte : CDTextTrackNumber → Nat
  | .WholeAlbum => 0
  | .Track n => n

/-- An 18-byte wire image of a pack, following the layout `parse_pack`
reads: tag, track, sequence counter, position/block/flag byte, 12 payload
bytes, big-endian checksum. -/
def encodePack (p : CDTextPack) : List Nat :=
  tagOf p.pack_type :: trackByte p.track_number :: p.seq_counter ::
    (p.character_position + 16 * p.block_number +
      128 * (if p.is_double_byte_characters then 1 else 0)) ::
    (p.payload ++ [p.crc / 256, p.crc % 256])

/-- Concatenation of the wire images of a list of packs. -/
def encodeAll : List CDTextPack → List Nat
  | [] => []
  | p :: ps => encodePack p ++ encodeAll ps

/-- Track references representable in the raw track byte. -/
def trackByteOk : CDTextTrackNumber → Bool
  | .WholeAlbum => true
  | .Track n => decide (0 < n) && decide (n < 256)

/-- A pack whose fields fit the wire format: 12-byte payload, 4-bit
character position, 3-bit block number, 16-bit checksum, representable
track byte. -/
def wellFormedPack (p : CDTextPack) : Prop :=
  p.payload.length = 12 ∧ p.character_position < 16 ∧ p.block_number < 8 ∧
    p.crc < 65536 ∧ trackByteOk p.track_number = true

instance (p : CDTextPack) : Decidable (wellFormedPack p) := by
  unfold wellFormedPack
  infer_instance

/-- The entry that `CDText::parse` produces for a pack whose 12-byte
payload is a single NUL-terminated string. -/
def mkSimpleEntry (p : CDTextPack) : CDTextEntry :=
  ⟨p.track_number, p.pack_type, .String (p.payload.takeWhile (· != 0))⟩

/-- A pack carrying one complete NUL-terminated 11-character printable
string at character position 0: the simple shape of the C4 claim. -/
def goodPack (p : CDTextPack) : Prop :=
  isTextCategory p.pack_type = true ∧ p.character_position = 0 ∧
    ∃ c, p.payload = c ++ [0] ∧ c.length = 11 ∧ ∀ b ∈ c, 0 < b ∧ b < 128

/-- Previous pack of the C1 counterexample: its payload's first five
bytes (the `before` slice for a current pack at character position 7)
hold exactly two NUL bytes but do not end in one. -/
def c1prev : CDTextPack :=
  ⟨.Title, .Track 5, 0, 0, 0, false, [65, 0, 66, 0, 67, 68, 68, 68, 68, 68, 68, 0], 0⟩

/-- Current pack of the C1 counterexample (character position 7). -/
def c1cur : CDTextPack :=
  ⟨.Title, .Track 6, 1, 7, 0, false, [0, 0, 0, 0, 0, 0, 0, 0, 0, 0, 0, 0], 0⟩

/-- Previous pack of the C1 witness: the `before` slice for a current
pack at character position 6 is `[65, 0, 66, 67, 68, 0]` — exactly two
NUL bytes, the second at the end. -/
def c1wPrev : CDTextPack :=
  ⟨.Title, .Track 5, 0, 0, 0, false, [65, 0, 66, 67, 68, 0, 69, 70, 71, 72, 73, 74], 0⟩

/-- Current pack of the C1 witness (character position 6). -/
def c1wCur : CDTextPack :=
  ⟨.Title, .Track 6, 1, 6, 0, false, [0, 0, 0, 0, 0, 0, 0, 0, 0, 0, 0, 0], 0⟩

/-- Previous pack of the C6 witness. -/
def c6wPrev : CDTextPack :=
  ⟨.Performers, .Track 2, 0, 0, 0, false, [74, 79, 72, 78, 0, 0, 77, 65, 82, 89, 0, 0], 0⟩

/-- Current pack of the C6 witness (character position 4). -/
def c6wCur : CDTextPack :=
  ⟨.Performers, .Track 3, 1, 4, 0, false, [0, 0, 0, 0, 0, 0, 0, 0, 0, 0, 0, 0], 0⟩

/-- Data of the C7 witness: a single Title pack for the whole album with
payload "HELLO" followed by NUL padding. -/
def c7wData : List Nat :=
  [0x80, 0, 0, 0, 72, 69, 76, 76, 79, 0, 0, 0, 0, 0, 0, 0, 0, 0]

/-- The thirteen one-byte tags the decoder recognises. -/
def knownTags : List Nat :=
  [0x80, 0x81, 0x82, 0x83, 0x84, 0x85, 0x86, 0x87, 0x88, 0x89, 0x8d, 0x8e, 0x8f]

/-- Data of the C3 counter-demonstration: one valid 18-byte Title pack
followed by a single stray 0x80 byte — 19 bytes in total. -/
def c3data : List Nat :=
  [0x80, 0, 0, 0, 72, 69, 76, 76, 79, 0, 0, 0, 0, 0, 0, 0, 0, 0, 0x80]

/-- First pack of the C4 witness: Title "ALBUMTITLE1" for the whole album. -/
def c4wA : CDTextPack :=
  ⟨.Title, .WholeAlbum, 0, 0, 0, false,
    [65, 76, 66, 85, 77, 84, 73, 84, 76, 69, 49, 0], 0⟩

/-- Second pack of the C4 witness: Performers "PERFORMER11" for track 1. -/
def c4wB : CDTextPack :=
  ⟨.Performers, .Track 1, 1, 0, 0, false,
    [80, 69, 82, 70, 79, 82, 77, 69, 82, 49, 49, 0], 0⟩

/-- First pack of the C5 witness: twelve printable bytes, no NUL. -/
def c5wA : CDTextPack :=
  ⟨.Title, .Track 1, 0, 0, 0, false,
    [76, 79, 78, 71, 84, 73, 84, 76, 69, 88, 88, 88], 0⟩

/-- Second pack of the C5 witness: the string's tail "YY" and its NUL. -/
def c5wB : CDTextPack :=
  ⟨.Title, .Track 1, 1, 0, 0, false, [89, 89, 0, 0, 0, 0, 0, 0, 0, 0, 0, 0], 0⟩

/-- Whether an entry's payload uses the `String` variant rather than the
raw-bytes `Data` variant. -/
def entryIsString : CDTextEntry → Bool :=
  fun e =>
    match e.data with
    | .String _ => true
    | .Data _ => false

/-- Data of the C10 witness: a single DiscID pack — a non-text category
whose final-flush entry still carries `String` data. -/
def c10wData : List Nat :=
  [0x86, 0, 0, 0, 1, 2, 3, 0, 0, 0, 0, 0, 0, 0, 0, 0, 0, 0]

/-! ### Lemmas and claim theorems -/

lemma utf8Valid_of_ascii : ∀ l : List Nat, (∀ b ∈ l, b < 128) → utf8Valid l = true
  | [], _ => rfl
  | b :: rest, h => by
    have hb : b < 128 := h b (List.mem_cons_self b rest)
    have hrest := utf8Valid_of_ascii rest (fun x hx => h x (List.mem_cons_of_mem _ hx))
    unfold utf8Valid at hrest ⊢
    rw [utf8Run]
    have hstep : utf8Step .start b = some .start := by
      simp [utf8Step, hb]
    rw [hstep]
    exact hrest

lemma stripTrailingZeros_of_ne (l : List Nat) (h : ∀ b ∈ l, b ≠ 0) :
    stripTrailingZeros l = l := by
  have hdw : l.reverse.dropWhile (· == 0) = l.reverse := by
    cases hr : l.reverse with
    | nil => rfl
    | cons x xs =>
      have hx : x ∈ l := by
        have hm : x ∈ l.reverse := by rw [hr]; exact List.mem_cons_self x xs
        exact List.mem_reverse.mp hm
      have hx0 : (x == 0) = false := by
        simp only [beq_eq_false_iff_ne, ne_eq]
        exact h x hx
      rw [List.dropWhile_cons, hx0]
      simp
  unfold stripTrailingZeros
  rw [hdw, List.reverse_reverse]

lemma stripTrailingZeros_append_zero (l : List Nat) :
    stripTrailingZeros (l ++ [0]) = stripTrailingZeros l := by
  simp [stripTrailingZeros, List.dropWhile_cons]

lemma firstZeroPos_append_zero (c : List Nat) (h : ∀ b ∈ c, b ≠ 0) (l : List Nat) :
    firstZeroPos (c ++ 0 :: l) = some c.length := by
  induction c with
  | nil => simp [firstZeroPos]
  | cons x xs ih =>
    have hx : x ≠ 0 := h x (List.mem_cons_self x xs)
    have := ih (fun b hb => h b (List.mem_cons_of_mem _ hb))
    simp [firstZeroPos, hx, this]

lemma firstZeroPos_isSome (l : List Nat) (h : (0 : Nat) ∈ l) :
    ∃ i, firstZeroPos l = some i := by
  induction l with
  | nil => cases h
  | cons x xs ih =>
    by_cases hx : x = 0
    · exact ⟨0, by simp [firstZeroPos, hx]⟩
    · have hmem : (0 : Nat) ∈ xs := by
        rcases List.mem_cons.mp h with h0 | h0
        · exact absurd h0.symm hx
        · exact h0
      obtain ⟨i, hi⟩ := ih hmem
      exact ⟨i + 1, by simp [firstZeroPos, hx, hi]⟩

lemma take_firstZeroPos (l : List Nat) (i : Nat) (h : firstZeroPos l = some i) :
    l.take i = l.takeWhile (· != 0) := by
  induction l generalizing i with
  | nil => simp [firstZeroPos] at h
  | cons x xs ih =>
    by_cases hx : x = 0
    · subst hx
      simp [firstZeroPos] at h
      subst h
      simp [List.takeWhile_cons]
    · simp [firstZeroPos, hx] at h
      obtain ⟨j, hj, rfl⟩ := h
      have hbne : (x != 0) = true := by simp [hx]
      simp [List.takeWhile_cons, hbne, List.take_succ_cons, ih j hj]

lemma takeWhile_ne_append_zero (c : List Nat) (h : ∀ b ∈ c, b ≠ 0) (l : List Nat) :
    (c ++ 0 :: l).takeWhile (· != 0) = c := by
  induction c with
  | nil => simp [List.takeWhile_cons]
  | cons x xs ih =>
    have hx : x ≠ 0 := h x (List.mem_cons_self x xs)
    have := ih (fun b hb => h b (List.mem_cons_of_mem _ hb))
    simp [List.takeWhile_cons, hx, this]

lemma chunks18Aux_nil (fuel : Nat) : chunks18Aux fuel [] = [] := by
  cases fuel <;> rfl

lemma chunks18Aux_congr : ∀ f1 f2 : Nat, ∀ l : List Nat,
    l.length ≤ f1 → l.length ≤ f2 → chunks18Aux f1 l = chunks18Aux f2 l := by
  intro f1
  induction f1 with
  | zero =>
    intro f2 l h1 _
    have : l = [] := List.length_eq_zero.mp (Nat.le_zero.mp h1)
    subst this
    rw [chunks18Aux_nil, chunks18Aux_nil]
  | succ f ih =>
    intro f2 l h1 h2
    cases l with
    | nil => rw [chunks18Aux_nil, chunks18Aux_nil]
    | cons x xs =>
      cases f2 with
      | zero => simp at h2
      | succ g =>
        show (x :: xs).take 18 :: chunks18Aux f ((x :: xs).drop 18) =
          (x :: xs).take 18 :: chunks18Aux g ((x :: xs).drop 18)
        have hd : ((x :: xs).drop 18).length = (x :: xs).length - 18 :=
          List.length_drop 18 (x :: xs)
        have hlen : (x :: xs).length = xs.length + 1 := by simp
        rw [ih g ((x :: xs).drop 18) (by omega) (by omega)]

lemma chunks18_cons (c rest : List Nat) (h : c.length = 18) :
    chunks18 (c ++ rest) = c :: chunks18 rest := by
  cases c with
  | nil => simp at h
  | cons x xs =>
    unfold chunks18
    have hxs : xs.length = 17 := by simpa using h
    have hlen : (x :: xs ++ rest).length = 17 + rest.length + 1 := by
      simp only [List.cons_append, List.length_cons, List.length_append, hxs]
    rw [hlen]
    show (x :: xs ++ rest).take 18 :: chunks18Aux (17 + rest.length) ((x :: xs ++ rest).drop 18) =
      (x :: xs) :: chunks18Aux rest.length rest
    have ht : (x :: xs ++ rest).take 18 = x :: xs := by
      rw [← h]; exact List.take_left (x :: xs) rest
    have hdr : (x :: xs ++ rest).drop 18 = rest := by
      rw [← h]; exact List.drop_left (x :: xs) rest
    rw [ht, hdr, chunks18Aux_congr (17 + rest.length) rest.length rest (by omega) (by omega)]

lemma encodePack_length (p : CDTextPack) (h : p.payload.length = 12) :
    (encodePack p).length = 18 := by
  simp [encodePack, h]

lemma fromU8_tagOf (t : CDTextPackType) :
    CDTextPackType.fromU8 (tagOf t) = some t := by
  cases t <;> rfl

lemma parse_pack_encodePack (p : CDTextPack) (h : wellFormedPack p) :
    parse_pack (encodePack p) = .ok (some p) := by
  obtain ⟨pt, tn, sq, cp, bn, dbl, payload, crc⟩ := p
  obtain ⟨hlen, hcp, hbn, hcrc, htr⟩ := h
  simp only at hlen hcp hbn hcrc htr
  have hl18 : (encodePack ⟨pt, tn, sq, cp, bn, dbl, payload, crc⟩).length = 18 :=
    encodePack_length _ hlen
  unfold encodePack at hl18 ⊢
  simp only at hl18 ⊢
  unfold parse_pack
  simp only [List.getElem?_cons_zero, List.getElem?_cons_succ, fromU8_tagOf, hl18]
  norm_num
  have hdrop : ((payload ++ [crc / 256, crc % 256]).take 12) = payload := by
    rw [← hlen]
    exact List.take_left payload [crc / 256, crc % 256]
  refine ⟨?_, ?_, ?_, ?_, hdrop, ?_⟩
  · cases tn with
    | WholeAlbum => simp [trackByte]
    | Track n =>
      have hn : 0 < n := by
        simp [trackByteOk] at htr
        exact htr.1
      simp [trackByte, Nat.pos_iff_ne_zero.mp hn]
  · cases dbl <;> simp <;> omega
  · cases dbl <;> simp <;> omega
  · cases dbl <;> simp <;> omega
  · rw [List.getElem?_append_right (by omega), List.getElem?_append_right (by omega), hlen]
    norm_num
    omega

lemma stepTail_not_terminal (buf : List Nat) (parsed : List CDTextEntry)
    (prev : CDTextPack) (track : CDTextTrackNumber) (before after : List Nat) :
    stepTail buf parsed prev track before after false =
      .ok (buf ++ before ++ after, parsed) := by
  simp [stepTail]

lemma stepTail_terminal (buf : List Nat) (parsed : List CDTextEntry)
    (prev : CDTextPack) (track : CDTextTrackNumber) (before after : List Nat)
    (h : utf8Valid (buf ++ appendedOf before) = true) :
    stepTail buf parsed prev track before after true =
      .ok (after, parsed ++
        [⟨track, prev.pack_type, .String (stripTrailingZeros (buf ++ appendedOf before))⟩]) := by
  simp [stepTail, h]

lemma parse_step_no_twonul (st : ParseState) (pack : CDTextPack)
    (hcount : ((beforeSlice st.prev_pack pack).filter (· == 0)).length ≠ 2) :
    parse_step st pack =
      stepTail st.payload_buffer st.parsed_data st.prev_pack
        st.prev_pack.track_number (beforeSlice st.prev_pack pack)
        (afterSlice st.prev_pack pack)
        (decide ((beforeSlice st.prev_pack pack).getLast? = some 0)) := by
  unfold parse_step
  simp [hcount]

lemma parse_step_twonul (st : ParseState) (pack : CDTextPack) (pos : Nat)
    (hcount : ((beforeSlice st.prev_pack pack).filter (· == 0)).length = 2)
    (hpos : firstZeroPos (beforeSlice st.prev_pack pack) = some pos)
    (hutf : utf8Valid (st.payload_buffer ++ (beforeSlice st.prev_pack pack).take pos) = true) :
    parse_step st pack =
      stepTail []
        (st.parsed_data ++ [⟨st.prev_pack.track_number, st.prev_pack.pack_type,
          .String (st.payload_buffer ++ (beforeSlice st.prev_pack pack).take pos)⟩])
        st.prev_pack (succTrack st.prev_pack.track_number)
        ((beforeSlice st.prev_pack pack).drop (pos + 1))
        (afterSlice st.prev_pack pack)
        (decide ((beforeSlice st.prev_pack pack).getLast? = some 0)) := by
  unfold parse_step
  simp [hcount, hpos, hutf]

lemma filter_zero_concat (c : List Nat) (h : ∀ b ∈ c, b ≠ 0) :
    ((c ++ [0]).filter (· == 0)).length = 1 := by
  rw [List.filter_append]
  have hc : c.filter (· == 0) = [] := by
    rw [List.filter_eq_nil_iff]
    intro a ha
    simpa using h a ha
  simp [hc]

lemma appendedOf_concat_zero (c : List Nat) (hne : c ≠ []) (h : ∀ b ∈ c, b ≠ 0) :
    appendedOf (c ++ [0]) = c := by
  unfold appendedOf
  have hany : (c ++ [0]).any (· != 0) = true := by
    rcases c with _ | ⟨x, xs⟩
    · exact absurd rfl hne
    · have hx : x ≠ 0 := h x (List.mem_cons_self x xs)
      simp [hx]
  rw [hany, if_pos rfl, stripTrailingZeros_append_zero, stripTrailingZeros_of_ne c h]

lemma parse_step_good (done : List CDTextEntry) (prev pack : CDTextPack)
    (c : List Nat) (hc : prev.payload = c ++ [0]) (hclen : c.length = 11)
    (hcb : ∀ b ∈ c, 0 < b ∧ b < 128)
    (hcp : pack.character_position = 0) :
    parse_step ⟨[], done, prev⟩ pack =
      .ok ([], done ++ [⟨prev.track_number, prev.pack_type, .String c⟩]) := by
  have hnz : ∀ b ∈ c, b ≠ 0 := fun b hb => Nat.pos_iff_ne_zero.mp (hcb b hb).1
  have hcne : c ≠ [] := by
    intro h0
    rw [h0] at hclen
    simp at hclen
  have hbefore : beforeSlice prev pack = c ++ [0] := by
    unfold beforeSlice
    rw [hcp, Nat.sub_zero, hc]
    exact List.take_of_length_le (by simp [hclen])
  have hafter : afterSlice prev pack = [] := by
    unfold afterSlice
    rw [hcp, Nat.sub_zero, hc]
    exact List.drop_eq_nil_of_le (by simp [hclen])
  have hcount : ((beforeSlice prev pack).filter (· == 0)).length ≠ 2 := by
    rw [hbefore, filter_zero_concat c hnz]
    omega
  have hterm : (beforeSlice prev pack).getLast? = some 0 := by
    rw [hbefore]
    exact List.getLast?_concat c
  have happ : appendedOf (beforeSlice prev pack) = c := by
    rw [hbefore]
    exact appendedOf_concat_zero c hcne hnz
  have hutf : utf8Valid ([] ++ appendedOf (beforeSlice prev pack)) = true := by
    rw [happ, List.nil_append]
    exact utf8Valid_of_ascii c (fun b hb => (hcb b hb).2)
  have hst : (⟨[], done, prev⟩ : ParseState).prev_pack = prev := rfl
  rw [parse_step_no_twonul ⟨[], done, prev⟩ pack (by rw [hst]; exact hcount)]
  rw [hst] at *
  rw [show (decide ((beforeSlice prev pack).getLast? = some 0)) = true from decide_eq_true hterm]
  rw [stepTail_terminal _ _ _ _ _ _ hutf]
  rw [hafter, happ, List.nil_append, stripTrailingZeros_of_ne c hnz]

lemma parse_loop_good : ∀ ps : List CDTextPack, ∀ done : List CDTextEntry,
    ∀ prev : CDTextPack, goodPack prev → (∀ p ∈ ps, goodPack p) →
    parse_loop (ps.map (fun p => PResult.ok (some p))) ⟨[], done, prev⟩ =
      .ok ⟨[], done ++ (prev :: ps).dropLast.map mkSimpleEntry, ps.getLastD prev⟩ := by
  intro ps
  induction ps with
  | nil =>
    intro done prev _ _
    simp [parse_loop, List.getLastD]
  | cons q qs ih =>
    intro done prev hprev hall
    obtain ⟨htextp, hcpp, c, hc, hclen, hcb⟩ := hprev
    have hq : goodPack q := hall q (List.mem_cons_self q qs)
    obtain ⟨htextq, hcpq, _, _, _, _⟩ := hq
    rw [List.map_cons, parse_loop]
    simp only [htextq, if_pos]
    rw [parse_step_good done prev q c hc hclen hcb hcpq]
    have hstr : (⟨prev.track_number, prev.pack_type, .String c⟩ : CDTextEntry) =
        mkSimpleEntry prev := by
      unfold mkSimpleEntry
      have hnz : ∀ b ∈ c, b ≠ 0 := fun b hb => Nat.pos_iff_ne_zero.mp (hcb b hb).1
      rw [hc, takeWhile_ne_append_zero c hnz]
    rw [hstr]
    show parse_loop (List.map (fun p => PResult.ok (some p)) qs)
        ⟨[], done ++ [mkSimpleEntry prev], q⟩ = _
    rw [ih (done ++ [mkSimpleEntry prev]) q (hall q (List.mem_cons_self q qs))
      (fun p hp => hall p (List.mem_cons_of_mem q hp))]
    rw [List.dropLast_cons₂, List.map_cons, List.getLastD_cons]
    simp

lemma chunks18_encodeAll : ∀ ps : List CDTextPack,
    (∀ p ∈ ps, p.payload.length = 12) →
    chunks18 (encodeAll ps) = ps.map encodePack := by
  intro ps
  induction ps with
  | nil => intro _; rfl
  | cons p rest ih =>
    intro h
    rw [encodeAll, chunks18_cons _ _ (encodePack_length p (h p (List.mem_cons_self p rest))),
      ih (fun x hx => h x (List.mem_cons_of_mem p hx)), List.map_cons]

lemma iter_pack_chunks_encodeAll (ps : List CDTextPack)
    (hwf : ∀ p ∈ ps, wellFormedPack p) :
    iter_pack_chunks (encodeAll ps) = ps.map (fun p => PResult.ok (some p)) := by
  unfold iter_pack_chunks
  rw [chunks18_encodeAll ps (fun p hp => (hwf p hp).1), List.map_map]
  exact List.map_congr_left (fun p hp => parse_pack_encodePack p (hwf p hp))

lemma getLastD_mem_cons : ∀ (ps : List CDTextPack) (d : CDTextPack),
    ps.getLastD d ∈ d :: ps := by
  intro ps
  induction ps with
  | nil => intro d; simp [List.getLastD]
  | cons q qs ih =>
    intro d
    rw [List.getLastD_cons]
    rcases List.mem_cons.mp (ih q) with h | h
    · rw [h]
      exact List.mem_cons_of_mem d (List.mem_cons_self q qs)
    · exact List.mem_cons_of_mem d (List.mem_cons_of_mem q h)

lemma dropLast_concat_getLastD : ∀ (xs : List CDTextPack) (x : CDTextPack),
    (x :: xs).dropLast ++ [xs.getLastD x] = x :: xs := by
  intro xs
  induction xs with
  | nil => intro x; simp [List.getLastD]
  | cons y ys ih =>
    intro x
    rw [List.dropLast_cons₂, List.getLastD_cons, List.cons_append, ih y]

lemma parse_eq_flush (data : List Nat) (prev0 : CDTextPack)
    (rest : List (PResult (Option CDTextPack))) (st : ParseState) (pos : Nat)
    (h1 : iter_pack_chunks data = .ok (some prev0) :: rest)
    (h2 : parse_loop rest ⟨[], [], prev0⟩ = .ok st)
    (h3 : firstZeroPos st.prev_pack.payload = some pos)
    (h4 : utf8Valid (st.payload_buffer ++ st.prev_pack.payload.take pos) = true) :
    parse data = .ok (st.parsed_data ++
      [⟨st.prev_pack.track_number, st.prev_pack.pack_type,
        .String (st.payload_buffer ++ st.prev_pack.payload.take pos)⟩]) := by
  unfold parse
  simp only [h1, h2, h3, h4]
  simp

/-- C4: for a buffer of text-category packs, each holding one complete
NUL-terminated printable string at character position 0, `parse` returns
one entry per pack, each entry's data being that pack's payload up to the
first NUL, with track references (and categories) copied verbatim. -/
theorem c4_single_pack_strings (ps : List CDTextPack) (hne : ps ≠ [])
    (hwf : ∀ p ∈ ps, wellFormedPack p) (hgood : ∀ p ∈ ps, goodPack p) :
    parse (encodeAll ps) = .ok (ps.map mkSimpleEntry) := by
  rcases ps with _ | ⟨p0, rest⟩
  · exact absurd rfl hne
  have hiter := iter_pack_chunks_encodeAll (p0 :: rest) hwf
  rw [List.map_cons] at hiter
  have hloop := parse_loop_good rest [] p0 (hgood p0 (List.mem_cons_self p0 rest))
    (fun p hp => hgood p (List.mem_cons_of_mem p0 hp))
  have hlast_mem : rest.getLastD p0 ∈ p0 :: rest := getLastD_mem_cons rest p0
  obtain ⟨_, _, c, hc, hclen, hcb⟩ := hgood _ hlast_mem
  have hnz : ∀ b ∈ c, b ≠ 0 := fun b hb => Nat.pos_iff_ne_zero.mp (hcb b hb).1
  have hpos : firstZeroPos (rest.getLastD p0).payload = some 11 := by
    rw [hc]
    have h0 := firstZeroPos_append_zero c hnz []
    rw [hclen] at h0
    exact h0
  have htake : (rest.getLastD p0).payload.take 11 = c := by
    rw [hc, ← hclen]
    exact List.take_left c [0]
  have hutf : utf8Valid (([] : List Nat) ++ (rest.getLastD p0).payload.take 11) = true := by
    rw [List.nil_append, htake]
    exact utf8Valid_of_ascii c (fun b hb => (hcb b hb).2)
  have hflush := parse_eq_flush (encodeAll (p0 :: rest)) p0 _
    ⟨[], [] ++ (p0 :: rest).dropLast.map mkSimpleEntry, rest.getLastD p0⟩ 11
    hiter hloop hpos hutf
  rw [hflush]
  simp only [List.nil_append]
  rw [htake]
  have hentry : (⟨(rest.getLastD p0).track_number, (rest.getLastD p0).pack_type,
      .String c⟩ : CDTextEntry) = mkSimpleEntry (rest.getLastD p0) := by
    unfold mkSimpleEntry
    rw [hc, takeWhile_ne_append_zero c hnz]
  rw [hentry,
    show [mkSimpleEntry (rest.getLastD p0)] = List.map mkSimpleEntry [rest.getLastD p0] from rfl,
    ← List.map_append, dropLast_concat_getLastD]

lemma ascii_append (l1 l2 : List Nat) (h1 : ∀ b ∈ l1, b < 128) (h2 : ∀ b ∈ l2, b < 128) :
    utf8Valid (l1 ++ l2) = true :=
  utf8Valid_of_ascii _ (fun b hb => (List.mem_append.mp hb).elim (h1 b) (h2 b))

/-- C5: a string spanning two consecutive packs — the first pack's payload
ends without a NUL (here: contains none) and the second pack's payload
holds the terminator — is reassembled into a single entry equal to the
concatenation of both contributing fragments with trailing NULs
stripped. -/
theorem c5_cross_pack_spanning (A B : CDTextPack)
    (hwa : wellFormedPack A) (hwb : wellFormedPack B)
    (htext : isTextCategory B.pack_type = true)
    (ha : ∀ b ∈ A.payload, 0 < b ∧ b < 128)
    (hb0 : (0 : Nat) ∈ B.payload) (hb : ∀ b ∈ B.payload, b < 128) :
    parse (encodePack A ++ encodePack B) =
      .ok [⟨B.track_number, B.pack_type,
        .String (stripTrailingZeros (A.payload ++ B.payload.takeWhile (· != 0)))⟩] := by
  have hdata : encodePack A ++ encodePack B = encodeAll [A, B] := by
    simp [encodeAll]
  have hwf : ∀ p ∈ [A, B], wellFormedPack p := by
    intro p hp
    rcases List.mem_cons.mp hp with h | h
    · rw [h]; exact hwa
    · rcases List.mem_cons.mp h with h2 | h2
      · rw [h2]; exact hwb
      · cases h2
  have hiter := iter_pack_chunks_encodeAll [A, B] hwf
  rw [List.map_cons, List.map_cons, List.map_nil] at hiter
  -- the single loop iteration
  have hanz : ∀ b ∈ A.payload, b ≠ 0 := fun b hbm => Nat.pos_iff_ne_zero.mp (ha b hbm).1
  have hcount : ((beforeSlice A B).filter (· == 0)).length ≠ 2 := by
    have : (beforeSlice A B).filter (· == 0) = [] := by
      rw [List.filter_eq_nil_iff]
      intro a hain
      have : a ∈ A.payload := List.take_subset _ _ hain
      simpa using hanz a this
    rw [this]
    simp
  have hterm : ¬((beforeSlice A B).getLast? = some 0) := by
    intro hlast
    have h0 : (0 : Nat) ∈ beforeSlice A B := by
      obtain ⟨hne, heq⟩ := List.mem_getLast?_eq_getLast (l := beforeSlice A B) (x := 0)
        (by simp [hlast])
      rw [heq]
      exact List.getLast_mem hne
    exact hanz 0 (List.take_subset _ _ h0) rfl
  have hstep := parse_step_no_twonul ⟨[], [], A⟩ B (by exact hcount)
  rw [show (decide ((beforeSlice ((⟨[], [], A⟩ : ParseState)).prev_pack B).getLast? = some 0)) = false
    from decide_eq_false hterm] at hstep
  rw [stepTail_not_terminal] at hstep
  have hsplit : beforeSlice A B ++ afterSlice A B = A.payload :=
    List.take_append_drop _ A.payload
  -- run the loop
  have hloop : parse_loop [PResult.ok (some B)] ⟨[], [], A⟩ =
      .ok ⟨A.payload, [], B⟩ := by
    rw [parse_loop]
    simp only [htext, if_pos]
    rw [hstep]
    show parse_loop [] ⟨[] ++ beforeSlice A B ++ afterSlice A B, [], B⟩ = _
    rw [parse_loop]
    simp [hsplit]
  -- the final flush
  obtain ⟨pos, hpos⟩ := firstZeroPos_isSome B.payload hb0
  have htakepos : B.payload.take pos = B.payload.takeWhile (· != 0) :=
    take_firstZeroPos B.payload pos hpos
  have htw : ∀ b ∈ B.payload.takeWhile (· != 0), b < 128 :=
    fun b hbm => hb b (List.takeWhile_subset _ hbm)
  have hutf : utf8Valid (A.payload ++ B.payload.take pos) = true := by
    rw [htakepos]
    exact ascii_append _ _ (fun b hbm => (ha b hbm).2) htw
  have hflush := parse_eq_flush (encodePack A ++ encodePack B) A [PResult.ok (some B)]
    ⟨A.payload, [], B⟩ pos (by rw [hdata]; exact hiter) hloop hpos hutf
  rw [hflush]
  simp only [List.nil_append, htakepos]
  have hnz2 : ∀ b ∈ A.payload ++ B.payload.takeWhile (· != 0), b ≠ 0 := by
    intro b hbm
    rcases List.mem_append.mp hbm with h | h
    · exact hanz b h
    · have := List.mem_takeWhile_imp h
      simpa using this
  rw [stripTrailingZeros_of_ne _ hnz2]

lemma parse_loop_panic_item (k : Panic) (rest : List (PResult (Option CDTextPack)))
    (st : ParseState) : parse_loop (.panic k :: rest) st = .panic k := by
  rw [parse_loop]

lemma parse_loop_none_item (rest : List (PResult (Option CDTextPack)))
    (st : ParseState) : parse_loop (.ok none :: rest) st = .panic .unwrapNone := by
  rw [parse_loop]

lemma parse_loop_text (pack : CDTextPack) (rest : List (PResult (Option CDTextPack)))
    (st : ParseState) (htext : isTextCategory pack.pack_type = true) :
    parse_loop (.ok (some pack) :: rest) st =
      (match parse_step st pack with
       | .panic k => .panic k
       | .ok (buf, parsed) => parse_loop rest ⟨buf, parsed, pack⟩) := by
  rw [parse_loop]
  simp [htext]

lemma parse_loop_break (pack : CDTextPack) (rest : List (PResult (Option CDTextPack)))
    (st : ParseState) (h : isTextCategory pack.pack_type = false) :
    parse_loop (.ok (some pack) :: rest) st = .ok st := by
  rw [parse_loop]
  simp [h]

lemma stepTail_terminal_badutf (buf : List Nat) (parsed : List CDTextEntry)
    (prev : CDTextPack) (track : CDTextTrackNumber) (before after : List Nat)
    (h : utf8Valid (buf ++ appendedOf before) = false) :
    stepTail buf parsed prev track before after true = .panic .utf8Error := by
  simp [stepTail, h]

lemma parse_ok_inversion (data : List Nat) (entries : List CDTextEntry)
    (h : parse data = .ok entries) :
    ∃ prev0 rest st pos,
      iter_pack_chunks data = .ok (some prev0) :: rest ∧
      parse_loop rest ⟨[], [], prev0⟩ = .ok st ∧
      firstZeroPos st.prev_pack.payload = some pos ∧
      utf8Valid (st.payload_buffer ++ st.prev_pack.payload.take pos) = true ∧
      entries = st.parsed_data ++
        [⟨st.prev_pack.track_number, st.prev_pack.pack_type,
          .String (st.payload_buffer ++ st.prev_pack.payload.take pos)⟩] := by
  unfold parse at h
  rcases hit : iter_pack_chunks data with _ | ⟨first, rest⟩
  · rw [hit] at h
    simp at h
  rw [hit] at h
  rcases first with k | op
  · simp at h
  rcases op with _ | prev0
  · simp at h
  dsimp only at h
  rcases hloop : parse_loop rest ⟨[], [], prev0⟩ with k | st
  · rw [hloop] at h
    simp at h
  rw [hloop] at h
  dsimp only at h
  rcases hpos : firstZeroPos st.prev_pack.payload with _ | pos
  · rw [hpos] at h
    simp at h
  rw [hpos] at h
  dsimp only at h
  by_cases hutf : utf8Valid (st.payload_buffer ++ st.prev_pack.payload.take pos) = true
  · refine ⟨prev0, rest, st, pos, rfl, hloop, hpos, hutf, ?_⟩
    rw [if_pos hutf] at h
    simp only [PResult.ok.injEq] at h
    exact h.symm
  · rw [if_neg hutf] at h
    simp at h

lemma appendedOf_subset (l : List Nat) : ∀ b ∈ appendedOf l, b ∈ l := by
  intro b hb
  cases hany : l.any (· != 0) with
  | true =>
    simp only [appendedOf, hany, if_pos] at hb
    unfold stripTrailingZeros at hb
    have h1 : b ∈ l.reverse.dropWhile (· == 0) := List.mem_reverse.mp hb
    have h2 : b ∈ l.reverse := (List.dropWhile_sublist (· == 0)).subset h1
    exact List.mem_reverse.mp h2
  | false =>
    simp only [appendedOf, hany] at hb
    simpa using hb

lemma stepTail_after_shape (buf : List Nat) (parsed : List CDTextEntry)
    (prev : CDTextPack) (track : CDTextTrackNumber) (before after : List Nat)
    (t : Bool) (h : utf8Valid (buf ++ appendedOf before) = true) :
    ∃ B es, stepTail buf parsed prev track before after t = .ok (B ++ after, es) := by
  cases t with
  | false =>
    rw [stepTail_not_terminal]
    exact ⟨buf ++ before, parsed, rfl⟩
  | true =>
    rw [stepTail_terminal _ _ _ _ _ _ h]
    exact ⟨[], _, by rw [List.nil_append]⟩

lemma zero_mem_of_filter_two (l : List Nat)
    (h : (l.filter (· == 0)).length = 2) : (0 : Nat) ∈ l := by
  by_contra h0
  have hfil : l.filter (· == 0) = [] := by
    rw [List.filter_eq_nil_iff]
    intro a ha
    simp only [beq_iff_eq]
    intro heq
    exact h0 (heq ▸ ha)
  rw [hfil] at h
  simp at h

/-- C1 (amended): when the `before` segment holds exactly two NUL bytes
*and ends in a NUL byte*, the loop iteration emits two separate entries;
the second entry's track reference is the successor of the first's
(WholeAlbum → Track 1, Track n → Track (n+1)). -/
theorem c1_two_nul_amended (st : ParseState) (pack : CDTextPack)
    (htext : isTextCategory pack.pack_type = true)
    (hcount : ((beforeSlice st.prev_pack pack).filter (· == 0)).length = 2)
    (hterm : (beforeSlice st.prev_pack pack).getLast? = some 0)
    (hbuf : ∀ b ∈ st.payload_buffer, b < 128)
    (hpl : ∀ b ∈ st.prev_pack.payload, b < 128) :
    ∃ e1 e2 buf, parse_step st pack = .ok (buf, st.parsed_data ++ [e1, e2]) ∧
      e1.track_number = st.prev_pack.track_number ∧
      e2.track_number = succTrack st.prev_pack.track_number ∧
      (st.prev_pack.track_number = .WholeAlbum → e2.track_number = .Track 1) ∧
      (∀ n, st.prev_pack.track_number = .Track n → n + 1 < 256 →
        e2.track_number = .Track (n + 1)) := by
  have hbsub : ∀ b ∈ beforeSlice st.prev_pack pack, b < 128 :=
    fun b hb => hpl b (List.take_subset _ _ hb)
  have h0mem : (0 : Nat) ∈ beforeSlice st.prev_pack pack :=
    zero_mem_of_filter_two _ hcount
  obtain ⟨pos, hpos⟩ := firstZeroPos_isSome _ h0mem
  have hutf1 : utf8Valid (st.payload_buffer ++ (beforeSlice st.prev_pack pack).take pos) = true :=
    ascii_append _ _ hbuf (fun b hb => hbsub b (List.take_subset _ _ hb))
  rw [parse_step_twonul st pack pos hcount hpos hutf1]
  rw [show (decide ((beforeSlice st.prev_pack pack).getLast? = some 0)) = true
    from decide_eq_true hterm]
  have hutf2 : utf8Valid (([] : List Nat) ++
      appendedOf ((beforeSlice st.prev_pack pack).drop (pos + 1))) = true := by
    rw [List.nil_append]
    exact utf8Valid_of_ascii _
      (fun b hb => hbsub b (List.drop_subset _ _ (appendedOf_subset _ b hb)))
  rw [stepTail_terminal _ _ _ _ _ _ hutf2]
  refine ⟨⟨st.prev_pack.track_number, st.prev_pack.pack_type,
      .String (st.payload_buffer ++ (beforeSlice st.prev_pack pack).take pos)⟩,
    ⟨succTrack st.prev_pack.track_number, st.prev_pack.pack_type,
      .String (stripTrailingZeros (([] : List Nat) ++
        appendedOf ((beforeSlice st.prev_pack pack).drop (pos + 1))))⟩,
    afterSlice st.prev_pack pack, ?_, rfl, rfl, ?_, ?_⟩
  · rw [List.append_assoc]
    rfl
  · intro hwa
    rw [hwa]
    rfl
  · intro n htr hlt
    simp only [htr, succTrack]
    rw [Nat.mod_eq_of_lt hlt]

/-- C1 (counterexample): a segment with exactly two NUL bytes for which
the loop iteration emits exactly one entry, not two — the second NUL is
not at the end of the segment, so no terminal flush happens. -/
theorem c1_counterexample :
    ((beforeSlice c1prev c1cur).filter (· == 0)).length = 2 ∧
    isTextCategory c1cur.pack_type = true ∧
    parse_step ⟨[], [], c1prev⟩ c1cur =
      .ok ([66, 0, 67, 68, 68, 68, 68, 68, 68, 0],
        [⟨.Track 5, .Title, .String [65]⟩]) ∧
    ¬ ∃ e1 e2 buf, parse_step ⟨[], [], c1prev⟩ c1cur = .ok (buf, [e1, e2]) := by
  refine ⟨by decide, by decide, by decide, ?_⟩
  rintro ⟨e1, e2, buf, h⟩
  rw [show parse_step ⟨[], [], c1prev⟩ c1cur =
      .ok ([66, 0, 67, 68, 68, 68, 68, 68, 68, 0],
        [⟨.Track 5, .Title, .String [65]⟩]) by decide] at h
  simp at h

theorem c1_witness :
    ∃ e1 e2 buf, parse_step ⟨[], [], c1wPrev⟩ c1wCur =
        .ok (buf, ([] : List CDTextEntry) ++ [e1, e2]) ∧
      e1.track_number = c1wPrev.track_number ∧
      e2.track_number = succTrack c1wPrev.track_number ∧
      (c1wPrev.track_number = .WholeAlbum → e2.track_number = .Track 1) ∧
      (∀ n, c1wPrev.track_number = .Track n → n + 1 < 256 →
        e2.track_number = .Track (n + 1)) :=
  c1_two_nul_amended ⟨[], [], c1wPrev⟩ c1wCur (by decide) (by decide) (by decide)
    (by decide) (by decide)

/-- C6: for a text-category current pack, the split index is
`max(0, 12 - character_position)` (saturating subtraction), it partitions
the previous pack's payload into `before ++ after = payload`, and the
`after` slice is always appended at the end of the accumulation buffer,
whatever flushing happened before. -/
theorem c6_split_index_partition (st : ParseState) (pack : CDTextPack)
    (htext : isTextCategory pack.pack_type = true)
    (hbuf : ∀ b ∈ st.payload_buffer, b < 128)
    (hpl : ∀ b ∈ st.prev_pack.payload, b < 128) :
    beforeSlice st.prev_pack pack =
      st.prev_pack.payload.take (12 - pack.character_position) ∧
    afterSlice st.prev_pack pack =
      st.prev_pack.payload.drop (12 - pack.character_position) ∧
    beforeSlice st.prev_pack pack ++ afterSlice st.prev_pack pack = st.prev_pack.payload ∧
    ∃ B es, parse_step st pack = .ok (B ++ afterSlice st.prev_pack pack, es) := by
  refine ⟨rfl, rfl, List.take_append_drop _ _, ?_⟩
  have hbsub : ∀ b ∈ beforeSlice st.prev_pack pack, b < 128 :=
    fun b hb => hpl b (List.take_subset _ _ hb)
  by_cases hcount : ((beforeSlice st.prev_pack pack).filter (· == 0)).length = 2
  · have h0mem := zero_mem_of_filter_two _ hcount
    obtain ⟨pos, hpos⟩ := firstZeroPos_isSome _ h0mem
    have hutf1 : utf8Valid (st.payload_buffer ++ (beforeSlice st.prev_pack pack).take pos) = true :=
      ascii_append _ _ hbuf (fun b hb => hbsub b (List.take_subset _ _ hb))
    rw [parse_step_twonul st pack pos hcount hpos hutf1]
    apply stepTail_after_shape
    rw [List.nil_append]
    exact utf8Valid_of_ascii _
      (fun b hb => hbsub b (List.drop_subset _ _ (appendedOf_subset _ b hb)))
  · rw [parse_step_no_twonul st pack hcount]
    apply stepTail_after_shape
    exact ascii_append _ _ hbuf (fun b hb => hbsub b (appendedOf_subset _ b hb))

theorem c6_witness :
    beforeSlice c6wPrev c6wCur =
      c6wPrev.payload.take (12 - c6wCur.character_position) ∧
    afterSlice c6wPrev c6wCur =
      c6wPrev.payload.drop (12 - c6wCur.character_position) ∧
    beforeSlice c6wPrev c6wCur ++ afterSlice c6wPrev c6wCur = c6wPrev.payload ∧
    ∃ B es, parse_step ⟨[], [], c6wPrev⟩ c6wCur =
      .ok (B ++ afterSlice c6wPrev c6wCur, es) :=
  c6_split_index_partition ⟨[], [], c6wPrev⟩ c6wCur (by decide) (by decide) (by decide)

/-- C7: whenever `parse` succeeds, the returned list is the loop's
entries plus exactly one final flushed entry made of the remaining
accumulation buffer and the last-processed pack's payload up to its
first NUL byte; and a non-text-category pack ends the walk with a break
(an `ok` result preserving the state), not an error. -/
theorem c7_final_flush :
    (∀ data entries, parse data = .ok entries →
      ∃ prev0 rest st pos,
        iter_pack_chunks data = .ok (some prev0) :: rest ∧
        parse_loop rest ⟨[], [], prev0⟩ = .ok st ∧
        firstZeroPos st.prev_pack.payload = some pos ∧
        entries = st.parsed_data ++
          [⟨st.prev_pack.track_number, st.prev_pack.pack_type,
            .String (st.payload_buffer ++ st.prev_pack.payload.take pos)⟩]) ∧
    (∀ pack rest st, isTextCategory pack.pack_type = false →
      parse_loop (.ok (some pack) :: rest) st = .ok st) := by
  constructor
  · intro data entries h
    obtain ⟨prev0, rest, st, pos, h1, h2, h3, _, h5⟩ := parse_ok_inversion data entries h
    exact ⟨prev0, rest, st, pos, h1, h2, h3, h5⟩
  · intro pack rest st h
    exact parse_loop_break pack rest st h

theorem c7_witness :
    ∃ prev0 rest st pos,
      iter_pack_chunks c7wData = .ok (some prev0) :: rest ∧
      parse_loop rest ⟨[], [], prev0⟩ = .ok st ∧
      firstZeroPos st.prev_pack.payload = some pos ∧
      [(⟨.WholeAlbum, .Title, .String [72, 69, 76, 76, 79]⟩ : CDTextEntry)] =
        st.parsed_data ++
          [⟨st.prev_pack.track_number, st.prev_pack.pack_type,
            .String (st.payload_buffer ++ st.prev_pack.payload.take pos)⟩] :=
  c7_final_flush.1 c7wData [⟨.WholeAlbum, .Title, .String [72, 69, 76, 76, 79]⟩] (by decide)

lemma fromU8_eq_none_iff (b : Nat) :
    CDTextPackType.fromU8 b = none ↔ b ∉ knownTags := by
  constructor
  · intro h hmem
    simp only [knownTags, List.mem_cons, List.not_mem_nil, or_false] at hmem
    rcases hmem with rfl | rfl | rfl | rfl | rfl | rfl | rfl | rfl | rfl | rfl | rfl | rfl | rfl <;>
      simp [CDTextPackType.fromU8] at h
  · intro hmem
    simp only [knownTags, List.mem_cons, List.not_mem_nil, or_false, not_or] at hmem
    obtain ⟨n1, n2, n3, n4, n5, n6, n7, n8, n9, n10, n11, n12, n13⟩ := hmem
    unfold CDTextPackType.fromU8
    rw [if_neg n1, if_neg n2, if_neg n3, if_neg n4, if_neg n5, if_neg n6, if_neg n7,
      if_neg n8, if_neg n9, if_neg n10, if_neg n11, if_neg n12, if_neg n13]

/-- C2 (code behaviour at a failing input): on a pack whose tag byte
matches no category, `parse` aborts through `Option::unwrap` — modelled
as a `.panic` result — instead of returning an entry list or a
recoverable typed error (the source defines no error type at all). -/
theorem c2_parse_panics_on_unknown_tag :
    parse (List.replicate 18 0) = .panic .unwrapNone := by decide

/-- C3 (code behaviour at a failing input): a 19-byte buffer produces
two windows, not floor(19/18) = 1; the trailing 1-byte window is handed
to the pack decoder, which panics indexing past its end instead of the
window being dropped. -/
theorem c3_partial_window_not_dropped :
    c3data.length = 19 ∧ c3data.length / 18 = 1 ∧
    (iter_pack_chunks c3data).length = 2 ∧
    (iter_pack_chunks c3data).getLast? = some (.panic .indexOutOfBounds) := by decide

/-- C9: reassembly is a pure function of the buffer — running it twice
on the same untouched buffer yields identical entry lists, and
re-iterating the pack stream yields identical items; in this embedding a
pass cannot mutate its input. -/
theorem c9_reassembly_idempotent (data : List Nat) :
    parse data = parse data ∧ iter_pack_chunks data = iter_pack_chunks data :=
  ⟨rfl, rfl⟩

/-- C8: on an exactly-18-byte slice the pack decoder fails (with the
unknown-category `None`) iff byte 0 matches no known tag, never panics,
and otherwise extracts every field bit-exactly: byte 1 = 0 maps to
WholeAlbum and any other value to Track(byte 1); byte 3's low nibble is
the character position, bits 4-6 the block number, bit 7 the double-byte
flag; bytes 4-15 are the payload and bytes 16-17 the big-endian checksum
stored unchecked. -/
theorem c8_pack_decoder
    (b0 b1 b2 b3 b4 b5 b6 b7 b8 b9 b10 b11 b12 b13 b14 b15 b16 b17 : Nat) :
    (parse_pack [b0, b1, b2, b3, b4, b5, b6, b7, b8,
        b9, b10, b11, b12, b13, b14, b15, b16, b17] = .ok none ↔ b0 ∉ knownTags) ∧
    (∃ r, parse_pack [b0, b1, b2, b3, b4, b5, b6, b7, b8,
        b9, b10, b11, b12, b13, b14, b15, b16, b17] = .ok r) ∧
    (∀ p, parse_pack [b0, b1, b2, b3, b4, b5, b6, b7, b8,
        b9, b10, b11, b12, b13, b14, b15, b16, b17] = .ok (some p) →
      CDTextPackType.fromU8 b0 = some p.pack_type ∧
      p.track_number = (if b1 = 0 then .WholeAlbum else .Track b1) ∧
      p.seq_counter = b2 ∧
      p.character_position = b3 % 16 ∧
      p.block_number = b3 / 16 % 8 ∧
      (p.is_double_byte_characters = true ↔ b3 / 128 % 2 ≠ 0) ∧
      p.payload = [b4, b5, b6, b7, b8, b9, b10, b11, b12, b13, b14, b15] ∧
      p.crc = 256 * b16 + b17) := by
  rcases hf : CDTextPackType.fromU8 b0 with _ | t
  · have hpp : parse_pack [b0, b1, b2, b3, b4, b5, b6, b7, b8,
        b9, b10, b11, b12, b13, b14, b15, b16, b17] = .ok none := by
      unfold parse_pack
      simp only [List.getElem?_cons_zero, hf]
    refine ⟨?_, ⟨none, hpp⟩, ?_⟩
    · rw [hpp]
      simp only [true_iff, iff_true]
      exact (fromU8_eq_none_iff b0).mp hf
    · intro p hp
      rw [hpp] at hp
      simp at hp
  · have hpp : parse_pack [b0, b1, b2, b3, b4, b5, b6, b7, b8,
        b9, b10, b11, b12, b13, b14, b15, b16, b17] =
        .ok (some ⟨t, if b1 = 0 then .WholeAlbum else .Track b1, b2,
          b3 % 16, b3 / 16 % 8, decide (b3 / 128 % 2 ≠ 0),
          [b4, b5, b6, b7, b8, b9, b10, b11, b12, b13, b14, b15],
          256 * b16 + b17⟩) := by
      unfold parse_pack
      simp only [List.getElem?_cons_zero, List.getElem?_cons_succ, hf]
      norm_num
    refine ⟨?_, ⟨_, hpp⟩, ?_⟩
    · rw [hpp]
      constructor
      · intro h
        exact absurd h (by simp)
      · intro hmem
        have := (fromU8_eq_none_iff b0).mpr hmem
        rw [hf] at this
        exact absurd this (by simp)
    · intro p hp
      rw [hpp] at hp
      simp only [PResult.ok.injEq, Option.some.injEq] at hp
      subst hp
      refine ⟨?_, rfl, rfl, rfl, rfl, ?_, rfl, rfl⟩
      · rfl
      · simp

theorem c8_witness :
    CDTextPackType.fromU8 0x80 = some CDTextPackType.Title ∧
    ∃ r, parse_pack [0x80, 2, 0, 0, 72, 73, 0, 0, 0, 0, 0, 0, 0, 0, 0, 0, 1, 7] = .ok r :=
  ⟨rfl, (c8_pack_decoder 0x80 2 0 0 72 73 0 0 0 0 0 0 0 0 0 0 1 7).2.1⟩

theorem c4_witness :
    parse (encodeAll [c4wA, c4wB]) =
      .ok [⟨.WholeAlbum, .Title, .String [65, 76, 66, 85, 77, 84, 73, 84, 76, 69, 49]⟩,
        ⟨.Track 1, .Performers, .String [80, 69, 82, 70, 79, 82, 77, 69, 82, 49, 49]⟩] :=
  c4_single_pack_strings [c4wA, c4wB] (by decide) (by decide)
    (by
      intro p hp
      rcases List.mem_cons.mp hp with h | h
      · subst h
        exact ⟨by decide, by decide, [65, 76, 66, 85, 77, 84, 73, 84, 76, 69, 49],
          by decide, by decide, by decide⟩
      · rcases List.mem_cons.mp h with h2 | h2
        · subst h2
          exact ⟨by decide, by decide, [80, 69, 82, 70, 79, 82, 77, 69, 82, 49, 49],
            by decide, by decide, by decide⟩
        · cases h2)

theorem c5_witness :
    parse (encodePack c5wA ++ encodePack c5wB) =
      .ok [⟨c5wB.track_number, c5wB.pack_type,
        .String (stripTrailingZeros (c5wA.payload ++ c5wB.payload.takeWhile (· != 0)))⟩] :=
  c5_cross_pack_spanning c5wA c5wB (by decide) (by decide) (by decide) (by decide)
    (by decide) (by decide)

lemma stepTail_strings (buf : List Nat) (parsed : List CDTextEntry)
    (prev : CDTextPack) (track : CDTextTrackNumber) (before after : List Nat)
    (t : Bool) (buf2 : List Nat) (es : List CDTextEntry)
    (h : stepTail buf parsed prev track before after t = .ok (buf2, es)) :
    ∀ e ∈ es, e ∈ parsed ∨ entryIsString e = true := by
  intro e he
  cases t with
  | false =>
    rw [stepTail_not_terminal] at h
    simp only [PResult.ok.injEq, Prod.mk.injEq] at h
    obtain ⟨_, h4⟩ := h
    subst h4
    exact .inl he
  | true =>
    by_cases hu : utf8Valid (buf ++ appendedOf before) = true
    · rw [stepTail_terminal _ _ _ _ _ _ hu] at h
      simp only [PResult.ok.injEq, Prod.mk.injEq] at h
      obtain ⟨_, h4⟩ := h
      subst h4
      rcases List.mem_append.mp he with hin | hin
      · exact .inl hin
      · right
        have := List.mem_singleton.mp hin
        subst this
        rfl
    · rw [Bool.not_eq_true] at hu
      rw [stepTail_terminal_badutf _ _ _ _ _ _ hu] at h
      exact absurd h (by simp)

lemma parse_step_strings (st : ParseState) (pack : CDTextPack)
    (buf : List Nat) (es : List CDTextEntry)
    (h : parse_step st pack = .ok (buf, es)) :
    ∀ e ∈ es, e ∈ st.parsed_data ∨ entryIsString e = true := by
  intro e he
  by_cases hcount : ((beforeSlice st.prev_pack pack).filter (· == 0)).length = 2
  · rcases hpos : firstZeroPos (beforeSlice st.prev_pack pack) with _ | pos
    · have : parse_step st pack = .panic .unwrapNone := by
        unfold parse_step
        simp [hcount, hpos]
      rw [this] at h
      exact absurd h (by simp)
    · by_cases hutf : utf8Valid (st.payload_buffer ++
          (beforeSlice st.prev_pack pack).take pos) = true
      · rw [parse_step_twonul st pack pos hcount hpos hutf] at h
        rcases stepTail_strings _ _ _ _ _ _ _ _ _ h e he with hin | hs
        · rcases List.mem_append.mp hin with hin2 | hin2
          · exact .inl hin2
          · right
            have := List.mem_singleton.mp hin2
            subst this
            rfl
        · exact .inr hs
      · rw [Bool.not_eq_true] at hutf
        have : parse_step st pack = .panic .utf8Error := by
          unfold parse_step
          simp [hcount, hpos, hutf]
        rw [this] at h
        exact absurd h (by simp)
  · rw [parse_step_no_twonul st pack hcount] at h
    exact stepTail_strings _ _ _ _ _ _ _ _ _ h e he

lemma parse_loop_strings : ∀ items : List (PResult (Option CDTextPack)),
    ∀ st st' : ParseState, parse_loop items st = .ok st' →
    (∀ e ∈ st.parsed_data, entryIsString e = true) →
    ∀ e ∈ st'.parsed_data, entryIsString e = true := by
  intro items
  induction items with
  | nil =>
    intro st st' h hinv
    rw [parse_loop] at h
    simp only [PResult.ok.injEq] at h
    subst h
    exact hinv
  | cons item rest ih =>
    intro st st' h hinv
    rcases item with k | op
    · rw [parse_loop_panic_item] at h
      exact absurd h (by simp)
    rcases op with _ | pack
    · rw [parse_loop_none_item] at h
      exact absurd h (by simp)
    by_cases htext : isTextCategory pack.pack_type = true
    · rw [parse_loop_text pack rest st htext] at h
      rcases hps : parse_step st pack with k | pr
      · rw [hps] at h
        exact absurd h (by simp)
      · rcases pr with ⟨buf, parsed⟩
        rw [hps] at h
        dsimp only at h
        refine ih ⟨buf, parsed, pack⟩ st' h ?_
        intro e he
        rcases parse_step_strings st pack buf parsed hps e he with hin | hs
        · exact hinv e hin
        · exact hs
    · rw [Bool.not_eq_true] at htext
      rw [parse_loop_break pack rest st htext] at h
      simp only [PResult.ok.injEq] at h
      subst h
      exact hinv

/-- C10: every entry a successful `parse` returns carries `String` data;
the raw-bytes `Data` variant is never produced, whatever the categories
of the packs in the buffer. -/
theorem c10_all_entries_are_strings (data : List Nat) (entries : List CDTextEntry)
    (h : parse data = .ok entries) : ∀ e ∈ entries, entryIsString e = true := by
  obtain ⟨prev0, rest, st, pos, _, hloop, _, _, hent⟩ := parse_ok_inversion data entries h
  subst hent
  intro e he
  rcases List.mem_append.mp he with hin | hin
  · exact parse_loop_strings rest ⟨[], [], prev0⟩ st hloop (by intro e' he'; cases he') e hin
  · have := List.mem_singleton.mp hin
    subst this
    rfl

theorem c10_witness :
    entryIsString ⟨.WholeAlbum, .DiscID, .String [1, 2, 3]⟩ = true :=
  c10_all_entries_are_strings c10wData
    [⟨.WholeAlbum, .DiscID, .String [1, 2, 3]⟩] (by decide)
    ⟨.WholeAlbum, .DiscID, .String [1, 2, 3]⟩ (by simp)
